import Mathlib

/-!
Shallow embedding of the dslib data-set library (DataSet.h / DataSet.cpp /
Helpers.cpp) and proofs about its schema, row-store, mutator and CSV-inference
operations. Row buffers are lists of cells; a cell is `some b` for an
initialized byte of value `b` and `none` for a byte that a `new char[...]`
allocation produced and nothing ever wrote (uninitialized memory).
-/

/-- Memory cell of a row buffer: `some b` is an initialized byte holding `b`,
`none` an uninitialized byte of a fresh `new char[...]` allocation. -/
abbrev Cell := Option Nat

/-- Role tag of a column, `DataVar::VarType`. -/
inductive VarType
  | explanatory
  | response
  | other
deriving DecidableEq

/-- Kind tag of a column, `DataVar::DataType`. -/
inductive DataType
  | categorical
  | quantitative
deriving DecidableEq

/-- One column of a schema, `DSLib::DataVar`: name, role, kind, byte width
(`size`) and byte offset within a row buffer. Equality (`operator==`) is full
value equality over all five fields, which `deriving DecidableEq` mirrors. -/
structure DataVar where
  identifier : String
  variable_type : VarType
  data_type : DataType
  size : Nat
  offset : Nat
deriving DecidableEq

/-- Sum of the widths of the given columns, `DataVar::compute_elem_size`
(the loop `sum += var.get_size()`). -/
def DataVar.compute_elem_size (vars : List DataVar) : Nat :=
  vars.foldl (fun sum v => sum + v.size) 0

/-- Effect of `memcpy(dst + off, src, src.length)`: write the cells of `src`
into `dst` from position `off` on. A write past the end of the buffer falls
away (`List.set` out of range is the identity); the embedding is used at
in-bounds offsets. -/
def writeAt : List Cell → Nat → List Cell → List Cell
  | dst, _, [] => dst
  | dst, off, c :: cs => writeAt (dst.set off c) (off + 1) cs

/-- Source range of `memcpy(_, buf + off, len)`: `len` cells of `buf` from
position `off` on. -/
def readBytes (buf : List Cell) (off len : Nat) : List Cell :=
  (buf.drop off).take len

/-- Truncate or pad `l` to exactly `n` cells, padding with uninitialized
cells: models `memcpy(dst, src, n)` reading `n` bytes through a caller
pointer whose pointee may be shorter than `n`. -/
def fitToLen (n : Nat) (l : List Cell) : List Cell :=
  l.take n ++ List.replicate (n - l.length) none

/-- A data set, `DSLib::DataSet`: the schema (`data_variables`, in column
order) and the rows (`data_elements`, each row the byte buffer of one
`DataElement`). -/
structure DataSet where
  data_variables : List DataVar
  data_elements : List (List Cell)
deriving DecidableEq

/-- Constructor `DataSet::DataSet(std::vector<DataVar> vars)`: stores the
variable list exactly as given (offsets included) and starts with no
elements; throws (`none`) only when the list is empty. -/
def DataSet.construct (vars : List DataVar) : Option DataSet :=
  if vars.length = 0 then none else some ⟨vars, []⟩

/-- Row width `DataSet::get_element_size`: recomputed from the variables on
every call. -/
def DataSet.get_element_size (ds : DataSet) : Nat :=
  DataVar.compute_elem_size ds.data_variables

/-- Schema lookup `DataSet::get_var_by_id`: the first variable whose
identifier matches; `none` models the returned null pointer. -/
def DataSet.get_var_by_id (ds : DataSet) (id : String) : Option DataVar :=
  ds.data_variables.find? (fun d => d.identifier == id)

/-- One iteration of the repack loop in `DataSet::remove_var`: the surviving
column `v` (already carrying its new offset) is looked up among the old
columns by full value equality (`ent == v`); only when something is found are
`v.size` bytes copied from the found column's offset in the old buffer `dbuf`
to `v`'s offset in the new buffer `nd`. -/
def copy_step (old_vars : List DataVar) (dbuf : List Cell) (nd : List Cell)
    (v : DataVar) : List Cell :=
  match old_vars.find? (fun ent => ent == v) with
  | some found => writeAt nd v.offset (readBytes dbuf found.offset v.size)
  | none => nd

/-- Column removal `DataSet::remove_var(const DataVar&)`: throws (`none`)
when `var` is not a member under full value equality; otherwise drops every
column equal to `var`, decrements the offset of each column that followed it
by `var.size` (`size_t` arithmetic stays in `Nat` because a later column's
offset is at least the removed column's offset), allocates for every row a
fresh buffer of the new element size and runs the repack loop over it. -/
def DataSet.remove_var (ds : DataSet) (var : DataVar) : Option DataSet :=
  if var ∈ ds.data_variables then
    let new_variables := ds.data_variables.filterMap (fun d =>
      if d = var then none
      else if var.offset < d.offset then some { d with offset := d.offset - var.size }
      else some d)
    let new_elem_size := DataVar.compute_elem_size new_variables
    let new_elements := ds.data_elements.map (fun dbuf =>
      new_variables.foldl (copy_step ds.data_variables dbuf)
        (List.replicate new_elem_size none))
    some ⟨new_variables, new_elements⟩
  else none

/-- Outcome of `DataSet::remove_var(const std::string&)`: success, a thrown
`DataException`, or the dereference of a null pointer (undefined behavior). -/
inductive RemoveByIdResult
  | ok (ds : DataSet)
  | thrown
  | nullDeref
deriving DecidableEq

/-- Column removal by name, `DataSet::remove_var(const std::string& id)`:
fetches the variable with `get_var_by_id` and dereferences the returned
pointer unconditionally (`remove_var(*var)`), so an absent name is a
null-pointer dereference, not a thrown exception. -/
def DataSet.remove_var_by_id (ds : DataSet) (id : String) : RemoveByIdResult :=
  match ds.get_var_by_id id with
  | none => .nullDeref
  | some v =>
    match ds.remove_var v with
    | some ds' => .ok ds'
    | none => .thrown

/-- Row append `DataSet::append_element`: the `DataElement` constructor copies
exactly the current element size's bytes out of the caller's buffer
(`memcpy(data, dat, set->get_element_size())`). -/
def DataSet.append_element (ds : DataSet) (dat : List Cell) : DataSet :=
  ⟨ds.data_variables, ds.data_elements ++ [fitToLen ds.get_element_size dat]⟩

/-- Outcome of `DataSet::get_element`: the code returns
`data_elements[index]` with no bounds check, so an out-of-range index is
undefined behavior, never a thrown exception. -/
inductive GetElementResult
  | ok (row : List Cell)
  | undefinedAccess
deriving DecidableEq

/-- Row access `DataSet::get_element(int index)`. -/
def DataSet.get_element (ds : DataSet) (index : Int) : GetElementResult :=
  if 0 ≤ index ∧ index < (ds.data_elements.length : Int) then
    match ds.data_elements.get? index.toNat with
    | some r => .ok r
    | none => .undefinedAccess
  else .undefinedAccess

/-- Outcome of `DataSet::remove_element`: success or a thrown
`std::out_of_range`. -/
inductive RemoveElementResult
  | ok (ds : DataSet)
  | outOfRange
deriving DecidableEq

/-- Row removal `DataSet::remove_element(int index)`: bounds-checked
(`index < 0 || index >= size`), then erases the row. -/
def DataSet.remove_element (ds : DataSet) (index : Int) : RemoveElementResult :=
  if index < 0 ∨ (ds.data_elements.length : Int) ≤ index then .outOfRange
  else .ok ⟨ds.data_variables, ds.data_elements.eraseIdx index.toNat⟩

/-- Outcome of `DataElement::get_field(int)`: a field pointer, a thrown
`std::out_of_range`, or undefined behavior. -/
inductive FieldResult
  | ok (bytes : List Cell)
  | outOfRange
  | undefinedAccess
deriving DecidableEq

/-- Field access by column index, `DataElement::get_field(int index)`:
bounds-checked against the number of variables
(`index < 0 || index >= set->get_num_vars()`), then the index is resolved to
a name via `get_var_ids` and the name back to a variable via `get_var_by_id`;
the returned pointer is the row tail from that variable's offset. -/
def DataElement.get_field_by_index (ds : DataSet) (row : List Cell)
    (index : Int) : FieldResult :=
  if index < 0 ∨ (ds.data_variables.length : Int) ≤ index then .outOfRange
  else
    match ds.data_variables.get? index.toNat with
    | none => .undefinedAccess
    | some dv =>
      match ds.get_var_by_id dv.identifier with
      | none => .undefinedAccess
      | some v => .ok (row.drop v.offset)

/-- Domain-size query `DataSet::get_possible_values`: 0 for an unknown name,
-1 for a quantitative column; for a categorical column the code counts
pairwise-distinct buffers with `memcmp(c, d->data, d->get_size())`, i.e. it
compares whole row buffers over the full element size, starting at the row's
base address, not at the column's offset. -/
def DataSet.get_possible_values (ds : DataSet) (id : String) : Int :=
  match ds.get_var_by_id id with
  | none => 0
  | some v =>
    if v.data_type = DataType.quantitative then -1
    else
      let sz := ds.get_element_size
      (ds.data_elements.foldl (fun acc d =>
        if acc.2.any (fun c => c.take sz == d.take sz) then acc
        else (acc.1 + 1, acc.2 ++ [d])) ((0 : Int), ([] : List (List Cell)))).1

/-- Count, following the spec's words, of the distinct byte patterns observed
across all current rows restricted to the named column's byte range
(offset, width); `none` when the name is not in the schema. This is the
reference side of the comparison for `get_possible_values`, not a translation
of the code. -/
def spec_distinct_column_values (ds : DataSet) (id : String) : Option Nat :=
  (ds.get_var_by_id id).map (fun v =>
    ((ds.data_elements.map (fun e => readBytes e v.offset v.size)).dedup).length)

/-- Outcome of `DataSet::forge_variable`: success, or one of the two thrown
`DataException`s (name conflict with the source variable; source variable not
found). -/
inductive ForgeResult
  | ok (ds : DataSet)
  | nameConflict
  | notFoundErr
deriving DecidableEq

/-- Column derivation `DataSet::forge_variable(new_var_id, mut_id, mut)` with
transform output width `w` (`sizeof(T)`): rejects only a new name equal to
the source name, fails when the source name is absent, and otherwise appends
a new variable of width `w` at offset equal to the old element size, copying
each row into a buffer of the new element size and writing the `w` bytes that
`mut` produced from the row tail at the source column's offset
(`de->get_field(mut_id)` is a pointer into the row at that offset). -/
def DataSet.forge_variable (ds : DataSet) (new_var_id mut_id : String)
    (w : Nat) (mutf : List Cell → List Cell) : ForgeResult :=
  if new_var_id = mut_id then .nameConflict
  else
    match ds.get_var_by_id mut_id with
    | none => .notFoundErr
    | some src =>
      let old_element_size := ds.get_element_size
      let new_var : DataVar :=
        ⟨new_var_id, src.variable_type, src.data_type, w, old_element_size⟩
      let new_vars := ds.data_variables ++ [new_var]
      let new_elem_size := DataVar.compute_elem_size new_vars
      let new_elements := ds.data_elements.map (fun de =>
        let base := writeAt (List.replicate new_elem_size none) 0
          (readBytes de 0 old_element_size)
        writeAt base old_element_size (fitToLen w (mutf (de.drop src.offset))))
      .ok ⟨new_vars, new_elements⟩

/-- Holds when every row buffer of the store has exactly the schema's current
row width, the Row Store invariant of the spec. -/
def rowsSized (ds : DataSet) : Bool :=
  ds.data_elements.all (fun e => e.length == ds.get_element_size)

/-- Lift of `rowsSized` to a `forge_variable` outcome: trivially true on the
error outcomes. -/
def ForgeResult.sized : ForgeResult → Bool
  | .ok ds => rowsSized ds
  | _ => true

/-- Running-sum packing predicate of the spec: each column's offset equals
the sum of the widths of the columns before it. -/
def packedFrom : Nat → List DataVar → Bool
  | _, [] => true
  | acc, v :: vs => (v.offset == acc) && packedFrom (acc + v.size) vs

/-- A schema is packed when its offsets are the running sums of the preceding
widths. -/
def packed (vars : List DataVar) : Bool := packedFrom 0 vars

/-- C locale `isspace` on the byte range the library feeds it. -/
def isspaceC (c : Char) : Bool :=
  c == ' ' || c == '\t' || c == '\n' || c == '\x0b' || c == '\x0c' || c == '\r'

/-- C locale `isdigit`. -/
def isdigitC (c : Char) : Bool := '0' ≤ c && c ≤ '9'

/-- A character the main loop of `Helpers::is_number` consumes without
returning false: a decimal digit or a radix point. -/
def isDigitOrDot (c : Char) : Bool := isdigitC c || c == '.'

/-- Main and trailing loops of `DSLib::Helpers::is_number`: `nr` is
`num_read`, `nx` is `num_radix`. On whitespace the main loop breaks and the
trailing loop requires everything left (the whitespace itself included) to be
whitespace; a character that is neither digit nor `.` returns false; a second
`.` returns false; at the end the token is numeric iff at least one character
was read. -/
def phase2 : List Char → Nat → Nat → Bool
  | [], nr, _ => decide (0 < nr)
  | c :: cs, nr, nx =>
    if isspaceC c then (c :: cs).all isspaceC && decide (0 < nr)
    else if !isdigitC c && !(c == '.') then false
    else
      let nx' := if c == '.' then nx + 1 else nx
      if c == '.' && decide (1 < nx') then false
      else phase2 cs (nr + 1) nx'

/-- Token classifier `DSLib::Helpers::is_number`: the first loop skips
leading whitespace, then the main scan runs with both counters at zero. -/
def is_number (s : String) : Bool := phase2 (s.data.dropWhile isspaceC) 0 0

/-- Working state of one column during the inferring CSV scan: the kind tag
and the tentative width, with `none` modelling the `(size_t)-1`
"undetermined" sentinel. -/
structure VarInf where
  data_type : DataType
  size : Option Nat
deriving DecidableEq

/-- Byte width of the configured quantitative representation,
`sizeof(QUANT_TYPE)` with the default `QUANT_TYPE = double`. -/
def quant_width : Nat := 8

/-- Outcome of scanning the tokens of one data line in the inferring
`DataSet::read_from_csv(path)`: a thrown "too many fields" exception, a
demotion that restarts the scan from the first data line, or normal
completion with the final token count. -/
inductive RowScanResult
  | fieldOverflow
  | restart (vars : List VarInf)
  | done (vars : List VarInf) (cnt : Nat)
deriving DecidableEq

/-- Token loop of the inferring scan pass, one data line: a numeric token on
a still-quantitative column fixes its width to `quant_width` if undetermined;
a non-numeric token on a quantitative column whose width is already fixed
demotes the column to categorical, resets its width to undetermined and
restarts the whole scan; otherwise the column becomes categorical and its
width grows to the token length plus one where needed. -/
def scanRow : List String → Nat → List VarInf → RowScanResult
  | [], cnt, vars => .done vars cnt
  | tok :: rest, cnt, vars =>
    if h : cnt < vars.length then
      let v := vars.get ⟨cnt, h⟩
      if is_number tok && decide (v.data_type = DataType.quantitative) then
        scanRow rest (cnt + 1)
          (if v.size.isNone then vars.set cnt ⟨v.data_type, some quant_width⟩ else vars)
      else if decide (v.data_type = DataType.quantitative) && !v.size.isNone then
        .restart (vars.set cnt ⟨DataType.categorical, none⟩)
      else if v.size.isNone || decide (v.size.getD 0 < tok.length + 1) then
        scanRow rest (cnt + 1) (vars.set cnt ⟨DataType.categorical, some (tok.length + 1)⟩)
      else
        scanRow rest (cnt + 1) vars
    else .fieldOverflow

/-- Line loop of the inferring scan pass over the data lines, with the
restart-on-demotion jump back to the first data line (`file.seekg(0)` plus
re-reading the header). The loop terminates because each restart demotes one
column from quantitative to categorical for good; the `fuel` argument makes
that termination structural and is chosen large enough by `infer_vars`. -/
def scanRows (allRows : List (List String)) (num_vars : Nat) :
    Nat → List (List String) → List VarInf → Option (List VarInf)
  | 0, _, _ => none
  | _ + 1, [], vars => some vars
  | fuel + 1, r :: rs, vars =>
    match scanRow r 0 vars with
    | .fieldOverflow => none
    | .restart vars' => scanRows allRows num_vars fuel allRows vars'
    | .done vars' cnt =>
      if cnt < num_vars then none
      else scanRows allRows num_vars fuel rs vars'

/-- Scan pass of the inferring `DataSet::read_from_csv(path)`: every header
token starts a column as quantitative with undetermined width, then the data
lines are scanned with restart-on-demotion. -/
def infer_vars (header : List String) (rows : List (List String)) :
    Option (List VarInf) :=
  scanRows rows header.length ((header.length + 1) * (rows.length + 1) + 1) rows
    (header.map (fun _ => ⟨DataType.quantitative, none⟩))

/-- Input of the C2 counterexample: a caller-supplied variable whose offset 5
is not the running sum 0. -/
def c2_var : DataVar := ⟨"a", .explanatory, .quantitative, 1, 5⟩
/-- Input store of the C6 counterexample: columns `a` and `b`. -/
def c6_ds : DataSet :=
  ⟨[⟨"a", .explanatory, .quantitative, 8, 0⟩,
    ⟨"b", .explanatory, .categorical, 1, 8⟩], []⟩
/-- Input store of the C7 and C8 theorems: one column `a`, one row. -/
def c7_ds : DataSet := ⟨[⟨"a", .explanatory, .categorical, 1, 0⟩], [[some 5]]⟩

/-! Helper lemmas. -/

/-- Writing preserves the length of the destination buffer. -/
theorem writeAt_length (src : List Cell) :
    ∀ (dst : List Cell) (off : Nat), (writeAt dst off src).length = dst.length := by
  induction src with
  | nil => intro dst off; simp [writeAt]
  | cons c cs ih => intro dst off; rw [writeAt, ih]; simp

/-- Truncating or padding yields exactly the requested length. -/
theorem fitToLen_length (n : Nat) (l : List Cell) : (fitToLen n l).length = n := by
  simp [fitToLen]
  omega

/-- One repack iteration preserves the length of the new buffer. -/
theorem copy_step_length (ov : List DataVar) (dbuf nd : List Cell) (v : DataVar) :
    (copy_step ov dbuf nd v).length = nd.length := by
  unfold copy_step
  cases ov.find? (fun ent => ent == v) with
  | none => rfl
  | some found => exact writeAt_length _ _ _

/-- The whole repack loop preserves the length of the new buffer. -/
theorem foldl_copy_length (ov : List DataVar) (dbuf : List Cell) :
    ∀ (nv : List DataVar) (init : List Cell),
      (nv.foldl (copy_step ov dbuf) init).length = init.length := by
  intro nv
  induction nv with
  | nil => intro init; rfl
  | cons v vs ih => intro init; rw [List.foldl_cons, ih, copy_step_length]

/-! Claim theorems. -/

/-- C1: the claim fails on the code. Dropping column `b` from the packed
schema `a, b, c` (each of width 1) must, per the claim, leave column `c`'s
byte at its new offset. The repack loop instead looks each surviving column
up in the old schema by full value equality, and `c` now carries the
decremented offset 1 while the old schema holds it at offset 2, so nothing is
found and nothing is copied: `c`'s cell in the rebuilt row is the
uninitialized `none`, not the original byte 30. Column `a`, whose offset did
not change, is copied correctly. -/
theorem C1_repack_loses_trailing_columns :
    DataSet.remove_var
      ⟨[⟨"a", .explanatory, .categorical, 1, 0⟩,
        ⟨"b", .explanatory, .categorical, 1, 1⟩,
        ⟨"c", .explanatory, .categorical, 1, 2⟩],
       [[some 10, some 20, some 30]]⟩
      ⟨"b", .explanatory, .categorical, 1, 1⟩
    = some ⟨[⟨"a", .explanatory, .categorical, 1, 0⟩,
             ⟨"c", .explanatory, .categorical, 1, 1⟩],
            [[some 10, none]]⟩ := by decide

/-- C2 counterexample: constructing a `DataSet` from a single variable whose
caller-supplied offset is 5 yields a schema whose offsets are not the running
sums of the preceding widths — the constructor does not ignore or overwrite
the caller's offsets. -/
theorem C2_offsets_not_recomputed_cex :
    (DataSet.construct [c2_var]).map (fun ds => packed ds.data_variables)
      = some false := by decide

/-- C2 (amended): the constructor rejects an empty variable list and
otherwise stores the caller's variables verbatim, offsets included; the
running-sum packing of offsets is established by callers (the inferring CSV
reader computes offsets before constructing), not by the constructor. -/
theorem C2_construct_preserves_variables :
    ∀ (vars : List DataVar) (ds : DataSet),
      DataSet.construct vars = some ds →
        ds.data_variables = vars ∧ ds.data_elements = [] := by
  intro vars ds h
  by_cases hv : vars.length = 0
  · simp [DataSet.construct, hv] at h
  · simp [DataSet.construct, hv] at h
    subst h
    exact ⟨rfl, rfl⟩

/-- C2 witness: the amended theorem applied to the one-variable list of the
counterexample. -/
theorem C2_construct_preserves_variables_witness :
    DataSet.construct [c2_var] = some ⟨[c2_var], []⟩ ∧
      ((DataSet.mk [c2_var] []).data_variables = [c2_var] ∧
       (DataSet.mk [c2_var] []).data_elements = []) :=
  ⟨by decide, C2_construct_preserves_variables [c2_var] ⟨[c2_var], []⟩ (by decide)⟩

/-- C4: a single column whose data-row tokens are "1", "2", "abc" in that
order is inferred as categorical with width 4 (the longest token "abc" plus
one terminator byte), not quantitative: the non-numeric third token demotes
the column, whose width the first token had fixed to the quantitative width,
and the scan restarts from the first data line, re-measuring every token as
categorical text. -/
theorem C4_demotion_scenario :
    ∃ w, infer_vars ["c"] [["1"], ["2"], ["abc"]]
        = some [⟨DataType.categorical, some w⟩] ∧ 4 ≤ w :=
  ⟨4, by decide, by decide⟩

/-- C5: the claim is right and the code is wrong. On a store with two
categorical width-1 columns and rows (97, 120) and (97, 121), the distinct
byte patterns of column `c0` number exactly 1 (both rows hold byte 97 there),
but `get_possible_values "c0"` returns 2 because its `memcmp` compares the
whole row buffer from the row's base address over the full element size
instead of the column's byte range. The quantitative sentinel −1 is
returned as the claim states. -/
theorem C5_possible_values_compare_whole_rows :
    DataSet.get_possible_values
      ⟨[⟨"c0", .explanatory, .categorical, 1, 0⟩,
        ⟨"c1", .explanatory, .categorical, 1, 1⟩],
       [[some 97, some 120], [some 97, some 121]]⟩ "c0" = 2 ∧
    spec_distinct_column_values
      ⟨[⟨"c0", .explanatory, .categorical, 1, 0⟩,
        ⟨"c1", .explanatory, .categorical, 1, 1⟩],
       [[some 97, some 120], [some 97, some 121]]⟩ "c0" = some 1 ∧
    DataSet.get_possible_values
      ⟨[⟨"q", .explanatory, .quantitative, 8, 0⟩], []⟩ "q" = -1 := by decide

/-- C6 counterexample: deriving a column named "b" from source "a" on a
schema that already has a column "b" does not fail with NameConflict as the
claim requires — the call succeeds and appends a second variable named "b". -/
theorem C6_collision_with_existing_column_accepted_cex :
    DataSet.forge_variable c6_ds "b" "a" 1 (fun x => x)
      = ForgeResult.ok ⟨[⟨"a", .explanatory, .quantitative, 8, 0⟩,
                         ⟨"b", .explanatory, .categorical, 1, 8⟩,
                         ⟨"b", .explanatory, .quantitative, 1, 9⟩], []⟩ := by decide

/-- C6 (amended): `forge_variable` fails with NameConflict exactly when the
new column's name equals the source column's name; a collision with any
other existing column's name is not detected, and the call proceeds. -/
theorem C6_forge_conflict_iff :
    ∀ (ds : DataSet) (n m : String) (w : Nat) (f : List Cell → List Cell),
      ds.forge_variable n m w f = ForgeResult.nameConflict ↔ n = m := by
  intro ds n m w f
  constructor
  · intro h
    by_cases he : n = m
    · exact he
    · exfalso
      simp only [DataSet.forge_variable, if_neg he] at h
      cases hg : ds.get_var_by_id m with
      | none => rw [hg] at h; simp at h
      | some src => rw [hg] at h; simp at h
  · intro he
    simp [DataSet.forge_variable, he]

/-- C7: the claim is right for the by-variable form and wrong on the code for
the by-name form. On a store whose schema is the single column `a`, removing
by the absent name "zzz" dereferences the null pointer `get_var_by_id`
returned — undefined behavior, not a NotFound failure; removing by an absent
variable value (wrong name, or right name with a wrong offset) throws as the
claim states, leaving the store untouched. -/
theorem C7_remove_by_name_null_deref :
    DataSet.remove_var_by_id c7_ds "zzz" = RemoveByIdResult.nullDeref ∧
    DataSet.remove_var c7_ds ⟨"zzz", .explanatory, .categorical, 1, 0⟩ = none ∧
    DataSet.remove_var c7_ds ⟨"a", .explanatory, .categorical, 1, 3⟩ = none := by decide

/-- C8: the claim is right for `remove_element` and `get_field(int)` and
wrong on the code for `get_element`. On a one-row, one-column store,
`get_element(1)` (index equal to the row count) indexes the vector with no
bounds check — undefined behavior, not an OutOfRange failure, although the
header comment of `get_element` promises `out_of_range`; `remove_element`
and `get_field(int)` check exactly as claimed and succeed at index 0. -/
theorem C8_get_element_unchecked :
    DataSet.get_element c7_ds 1 = GetElementResult.undefinedAccess ∧
    DataSet.get_element c7_ds 0 = GetElementResult.ok [some 5] ∧
    DataSet.remove_element c7_ds 1 = RemoveElementResult.outOfRange ∧
    DataSet.remove_element c7_ds (-1) = RemoveElementResult.outOfRange ∧
    DataSet.remove_element c7_ds 0
      = RemoveElementResult.ok ⟨[⟨"a", .explanatory, .categorical, 1, 0⟩], []⟩ ∧
    DataElement.get_field_by_index c7_ds [some 5] 1 = FieldResult.outOfRange ∧
    DataElement.get_field_by_index c7_ds [some 5] (-1) = FieldResult.outOfRange ∧
    DataElement.get_field_by_index c7_ds [some 5] 0 = FieldResult.ok [some 5] := by decide

/-- C3: every row buffer of the store resulting from `remove_var` or
`forge_variable` has exactly the resulting schema's current row width (the
fresh buffers are allocated at the recomputed element size), and the
`DataElement` constructor behind `append_element` creates the new row at
exactly the current element size. -/
theorem C3_row_width_invariant :
    (∀ (ds : DataSet) (var : DataVar),
        ((ds.remove_var var).all rowsSized) = true) ∧
    (∀ (ds : DataSet) (n m : String) (w : Nat) (f : List Cell → List Cell),
        (ds.forge_variable n m w f).sized = true) ∧
    (∀ (ds : DataSet) (dat : List Cell),
        (((ds.append_element dat).data_elements.getLast?).all
          (fun e => e.length == ds.get_element_size)) = true) := by
  refine ⟨?_, ?_, ?_⟩
  · intro ds var
    by_cases h : var ∈ ds.data_variables
    · simp only [DataSet.remove_var, if_pos h, Option.all, rowsSized,
        DataSet.get_element_size, List.all_eq_true, List.mem_map]
      rintro e ⟨dbuf, hmem, rfl⟩
      simp [foldl_copy_length]
    · simp [DataSet.remove_var, if_neg h, Option.all]
  · intro ds n m w f
    by_cases he : n = m
    · simp [DataSet.forge_variable, he, ForgeResult.sized]
    · simp only [DataSet.forge_variable, if_neg he]
      cases hg : ds.get_var_by_id m with
      | none => simp [ForgeResult.sized]
      | some src =>
        simp only [ForgeResult.sized, rowsSized, DataSet.get_element_size,
          List.all_eq_true, List.mem_map]
        rintro e ⟨de, hmem, rfl⟩
        simp [writeAt_length]
  · intro ds dat
    simp [DataSet.append_element, List.getLast?_concat, fitToLen_length, Option.all]

/-- Splitting a list at the takeWhile/dropWhile boundary reassembles it. -/
theorem takeWhile_dropWhile_eq (p : Char → Bool) (l : List Char) :
    l.takeWhile p ++ l.dropWhile p = l := by
  induction l with
  | nil => rfl
  | cons c cs ih =>
    by_cases h : p c
    · simp [List.takeWhile_cons, List.dropWhile_cons, h, ih]
    · simp [List.takeWhile_cons, List.dropWhile_cons, h]

/-- Every character a takeWhile keeps satisfies the predicate. -/
theorem all_takeWhile_self (p : Char → Bool) (l : List Char) :
    (l.takeWhile p).all p = true := by
  induction l with
  | nil => rfl
  | cons c cs ih =>
    by_cases h : p c
    · simp [List.takeWhile_cons, h, ih]
    · simp [List.takeWhile_cons, h]

/-- An all-space prefix is dropped whole by `dropWhile isspaceC`. -/
theorem dropWhile_space_append (a r : List Char) (ha : a.all isspaceC = true) :
    (a ++ r).dropWhile isspaceC = r.dropWhile isspaceC := by
  induction a with
  | nil => rfl
  | cons x xs ih =>
    simp only [List.all_cons, Bool.and_eq_true] at ha
    simpa [List.dropWhile_cons, ha.1] using ih ha.2

/-- A whitespace character is neither a digit nor a dot. -/
theorem isspaceC_not_digitdot {c : Char} (h : isspaceC c = true) :
    isDigitOrDot c = false := by
  simp only [isspaceC, Bool.or_eq_true, beq_iff_eq] at h
  rcases h with ((((h | h) | h) | h) | h) | h <;> subst h <;> decide

/-- A digit or dot is not whitespace. -/
theorem digitdot_not_isspaceC {c : Char} (h : isDigitOrDot c = true) :
    isspaceC c = false := by
  cases hb : isspaceC c with
  | false => rfl
  | true => rw [isspaceC_not_digitdot hb] at h; exact Bool.noConfusion h

/-- Splitting off a prefix whose characters all satisfy `p`, followed by a
remainder whose head refutes `p`, is exactly the takeWhile/dropWhile split. -/
theorem takeWhile_append_of_all (p : Char → Bool) :
    ∀ (b c : List Char), b.all p = true →
      (∀ x, c.head? = some x → p x = false) →
      (b ++ c).takeWhile p = b ∧ (b ++ c).dropWhile p = c := by
  intro b
  induction b with
  | nil =>
    intro c _ hc
    cases c with
    | nil => exact ⟨rfl, rfl⟩
    | cons y ys =>
      have hy := hc y rfl
      constructor
      · simp [List.takeWhile_cons, hy]
      · simp [List.dropWhile_cons, hy]
  | cons x xs ih =>
    intro c hb hc
    simp only [List.all_cons, Bool.and_eq_true] at hb
    obtain ⟨t1, t2⟩ := ih c hb.2 hc
    constructor
    · simp [List.takeWhile_cons, hb.1, t1]
    · simp [List.dropWhile_cons, hb.1, t2]

/-- Characterization of the main scan of `is_number`: starting with radix
count `nx ≤ 1` and `nr` characters already read, the scan accepts exactly
when the remainder is a run of digits and dots followed by whitespace only,
the run's dots together with `nx` stay at most one, and at least one
character is read in total. -/
theorem phase2_iff :
    ∀ (t : List Char) (nr nx : Nat), nx ≤ 1 →
      (phase2 t nr nx = true ↔
        ((t.dropWhile isDigitOrDot).all isspaceC = true ∧
         (t.takeWhile isDigitOrDot).count '.' + nx ≤ 1 ∧
         0 < nr + (t.takeWhile isDigitOrDot).length)) := by
  intro t
  induction t with
  | nil =>
    intro nr nx hnx
    simp [phase2, hnx]
  | cons c cs ih =>
    intro nr nx hnx
    by_cases hs : isspaceC c = true
    · have hd : isDigitOrDot c = false := isspaceC_not_digitdot hs
      simp [phase2, hs, hd, List.takeWhile_cons, List.dropWhile_cons,
        List.all_cons, hnx]
    · rw [Bool.not_eq_true] at hs
      by_cases hd : isDigitOrDot c = true
      · by_cases hdot : (c == '.') = true
        · cases nx with
          | zero =>
            have e1 : phase2 (c :: cs) nr 0 = phase2 cs (nr + 1) 1 := by
              simp [phase2, hs, hdot]
            rw [e1, ih (nr + 1) 1 (by omega)]
            rw [List.takeWhile_cons, if_pos hd, List.dropWhile_cons, if_pos hd]
            simp only [List.count_cons, hdot, if_true, List.length_cons]
            constructor
            · rintro ⟨h1, h2, h3⟩
              exact ⟨h1, by omega, by omega⟩
            · rintro ⟨h1, h2, h3⟩
              exact ⟨h1, by omega, by omega⟩
          | succ n =>
            have hn : n = 0 := by omega
            subst hn
            have e1 : phase2 (c :: cs) nr 1 = false := by
              simp [phase2, hs, hdot]
            rw [e1]
            simp only [Bool.false_eq_true, false_iff]
            rintro ⟨h1, h2, h3⟩
            rw [List.takeWhile_cons, if_pos hd] at h2
            simp only [List.count_cons, hdot, if_true] at h2
            omega
        · rw [Bool.not_eq_true] at hdot
          have hdigit : isdigitC c = true := by
            simpa [isDigitOrDot, hdot] using hd
          have e1 : phase2 (c :: cs) nr nx = phase2 cs (nr + 1) nx := by
            simp [phase2, hs, hdot, hdigit]
          rw [e1, ih (nr + 1) nx hnx]
          rw [List.takeWhile_cons, if_pos hd, List.dropWhile_cons, if_pos hd]
          simp only [List.count_cons, hdot, Bool.false_eq_true, if_false, List.length_cons]
          constructor
          · rintro ⟨h1, h2, h3⟩
            exact ⟨h1, by omega, by omega⟩
          · rintro ⟨h1, h2, h3⟩
            exact ⟨h1, by omega, by omega⟩
      · rw [Bool.not_eq_true] at hd
        have h1 : isdigitC c = false := by
          cases hq : isdigitC c with
          | false => rfl
          | true => rw [isDigitOrDot, hq] at hd; exact Bool.noConfusion hd
        have h2 : (c == '.') = false := by
          cases hq : (c == '.') with
          | false => rfl
          | true => rw [isDigitOrDot, hq, Bool.or_true] at hd; exact Bool.noConfusion hd
        simp [phase2, hs, h1, h2, List.takeWhile_cons, List.dropWhile_cons,
          List.all_cons, hd]

/-- C10: `Helpers::is_number` accepts exactly the tokens that consist of
optional leading whitespace, then one or more characters each a decimal
digit or '.', with at most one '.' among them, then optional trailing
whitespace; consequently the signed numeral "-1" is rejected (a column of
negative numbers therefore infers as categorical) and the lone token "." is
accepted. -/
theorem C10_is_number_iff :
    (∀ s : String, is_number s = true ↔
      ∃ a b c : List Char, s.data = a ++ b ++ c ∧
        a.all isspaceC = true ∧ b ≠ [] ∧ b.all isDigitOrDot = true ∧
        b.count '.' ≤ 1 ∧ c.all isspaceC = true) ∧
    is_number "-1" = false ∧ is_number "." = true := by
  refine ⟨?_, by decide, by decide⟩
  intro s
  rw [is_number, phase2_iff _ 0 0 (by omega)]
  constructor
  · rintro ⟨h1, h2, h3⟩
    refine ⟨s.data.takeWhile isspaceC,
      (s.data.dropWhile isspaceC).takeWhile isDigitOrDot,
      (s.data.dropWhile isspaceC).dropWhile isDigitOrDot, ?_, ?_, ?_, ?_, ?_, ?_⟩
    · rw [List.append_assoc, takeWhile_dropWhile_eq, takeWhile_dropWhile_eq]
    · exact all_takeWhile_self _ _
    · intro hb
      rw [hb] at h3
      simp at h3
    · exact all_takeWhile_self _ _
    · omega
    · exact h1
  · rintro ⟨a, b, c, hdecomp, ha, hbne, hb, hcount, hc⟩
    obtain ⟨x, xs, rfl⟩ : ∃ x xs, b = x :: xs := by
      cases b with
      | nil => exact absurd rfl hbne
      | cons x xs => exact ⟨x, xs, rfl⟩
    have hx : isDigitOrDot x = true := by
      simp only [List.all_cons, Bool.and_eq_true] at hb
      exact hb.1
    have hxs : isspaceC x = false := digitdot_not_isspaceC hx
    have hd1 : s.data.dropWhile isspaceC = (x :: xs) ++ c := by
      rw [hdecomp, List.append_assoc, dropWhile_space_append _ _ ha]
      simp [List.dropWhile_cons, hxs]
    have hchead : ∀ y, c.head? = some y → isDigitOrDot y = false := by
      intro y hy
      cases c with
      | nil => exact Option.noConfusion hy
      | cons z zs =>
        have hz : z = y := by simpa using hy
        subst hz
        simp only [List.all_cons, Bool.and_eq_true] at hc
        exact isspaceC_not_digitdot hc.1
    obtain ⟨ht, hdw⟩ := takeWhile_append_of_all isDigitOrDot (x :: xs) c hb hchead
    rw [hd1, ht, hdw]
    refine ⟨hc, by omega, by simp⟩
